import Mathlib

/-!
# TinyG XIO subsystem (`firmware/tinyg_314.03/xio.h`)

A shallow embedding of the constants, enumerations and bit-evaluation macros of
`xio.h`, followed by the circular buffer discipline described for the USART
devices, and theorems about them.

Conventions: a `uint32_t` flag word is a natural number below `2 ^ 32`; a
`char` constant is its byte value; an `enum` constant is its integer value
(the first is `0` unless given, each next one is the previous plus one).
-/

namespace Xio

/-! ## Definitions: TRUE / FALSE -/

/-- Header definition `#define FALSE 0` -/
def FALSE : Nat := 0

/-- Header definition `#define TRUE 1` -/
def TRUE : Nat := 1

/-! ## Definitions: `enum xioCodes` -/

def XIO_OK : Nat := 0
def XIO_ERR : Nat := XIO_OK + 1
def XIO_EAGAIN : Nat := XIO_ERR + 1
def XIO_NOOP : Nat := XIO_EAGAIN + 1
def XIO_COMPLETE : Nat := XIO_NOOP + 1
def XIO_EOL : Nat := XIO_COMPLETE + 1
def XIO_EOF : Nat := XIO_EOL + 1
def XIO_FILE_NOT_OPEN : Nat := XIO_EOF + 1
def XIO_FILE_SIZE_EXCEEDED : Nat := XIO_FILE_NOT_OPEN + 1
def XIO_NO_SUCH_DEVICE : Nat := XIO_FILE_SIZE_EXCEEDED + 1
def XIO_BUFFER_EMPTY : Nat := XIO_NO_SUCH_DEVICE + 1
def XIO_BUFFER_FULL_FATAL : Nat := XIO_BUFFER_EMPTY + 1
def XIO_BUFFER_FULL_NON_FATAL : Nat := XIO_BUFFER_FULL_FATAL + 1

/-- Header definition `#define XIO_ERRNO_MAX XIO_BUFFER_FULL_NON_FATAL` -/
def XIO_ERRNO_MAX : Nat := XIO_BUFFER_FULL_NON_FATAL

/-- The enumerators of `enum xioCodes`, in declaration order. -/
def xioCodes : List Nat :=
  [XIO_OK, XIO_ERR, XIO_EAGAIN, XIO_NOOP, XIO_COMPLETE, XIO_EOL, XIO_EOF,
   XIO_FILE_NOT_OPEN, XIO_FILE_SIZE_EXCEEDED, XIO_NO_SUCH_DEVICE,
   XIO_BUFFER_EMPTY, XIO_BUFFER_FULL_FATAL, XIO_BUFFER_FULL_NON_FATAL]

/-- Number of values of the `uint8_t status` field of `struct xioDEVICE`. -/
def UINT8_RANGE : Nat := 2 ^ 8

/-! ## Definitions: `enum xioDevice` and the per-family offsets -/

def XIO_DEV_RS485 : Nat := 0
def XIO_DEV_USB : Nat := XIO_DEV_RS485 + 1
def XIO_DEV_TTL : Nat := XIO_DEV_USB + 1
def XIO_DEV_PGM : Nat := XIO_DEV_TTL + 1
def XIO_DEV_EEP : Nat := XIO_DEV_PGM + 1
def XIO_DEV_COUNT : Nat := XIO_DEV_EEP + 1

def XIO_DEV_RS485_OFFSET : Nat := XIO_DEV_RS485
def XIO_DEV_USB_OFFSET : Nat := XIO_DEV_USB
def XIO_DEV_TTL_OFFSET : Nat := XIO_DEV_TTL
def XIO_DEV_USART_COUNT : Nat := 3

def XIO_DEV_PGM_OFFSET : Nat := XIO_DEV_PGM - XIO_DEV_PGM
def XIO_DEV_EEP_OFFSET : Nat := XIO_DEV_EEP - XIO_DEV_PGM
def XIO_DEV_FILE_COUNT : Nat := 2

/-- The two device families of `enum xioDevice` (the TYPE column of its comments). -/
inductive DevFamily where
  | usart
  | file
  deriving DecidableEq, Repr

/-- Family of a device identifier, after the TYPE column of `enum xioDevice`:
the three identifiers below `XIO_DEV_PGM` are USART devices, the others FILE devices. -/
def devFamily (d : Nat) : DevFamily :=
  if d < XIO_DEV_PGM then DevFamily.usart else DevFamily.file

/-- Index of a device in its family array (`us[]` or `fs[]`): the
`XIO_DEV_*_OFFSET` macro of the device. -/
def devOffset (d : Nat) : Nat :=
  if d = XIO_DEV_RS485 then XIO_DEV_RS485_OFFSET
  else if d = XIO_DEV_USB then XIO_DEV_USB_OFFSET
  else if d = XIO_DEV_TTL then XIO_DEV_TTL_OFFSET
  else if d = XIO_DEV_PGM then XIO_DEV_PGM_OFFSET
  else XIO_DEV_EEP_OFFSET

/-- Length of the extended-state array of a family: `us[XIO_DEV_USART_COUNT]`,
`fs[XIO_DEV_FILE_COUNT]`. -/
def familyCount : DevFamily → Nat
  | DevFamily.usart => XIO_DEV_USART_COUNT
  | DevFamily.file => XIO_DEV_FILE_COUNT

/-! ## Definitions: internal control flags -/

/-- The `(uint32_t)1<<k` of the flag definitions. -/
def bit32 (k : Nat) : Nat := (1 <<< k) % 2 ^ 32

def XIO_FLAG_RD_bm : Nat := bit32 0
def XIO_FLAG_WR_bm : Nat := bit32 1
def XIO_FLAG_BLOCK_bm : Nat := bit32 2
def XIO_FLAG_XOFF_bm : Nat := bit32 3
def XIO_FLAG_ECHO_bm : Nat := bit32 4
def XIO_FLAG_CRLF_bm : Nat := bit32 5
def XIO_FLAG_IGNORECR_bm : Nat := bit32 6
def XIO_FLAG_IGNORELF_bm : Nat := bit32 7
def XIO_FLAG_LINEMODE_bm : Nat := bit32 8
def XIO_FLAG_TX_MUTEX_bm : Nat := bit32 9
def XIO_FLAG_EOL_bm : Nat := bit32 10
def XIO_FLAG_EOF_bm : Nat := bit32 11
def XIO_FLAG_IN_LINE_bm : Nat := bit32 12
def XIO_FLAG_DO_XOFF_bm : Nat := bit32 13
def XIO_FLAG_DO_XON_bm : Nat := bit32 14
def XIO_FLAG_IN_XOFF_bm : Nat := bit32 15

/-- Header definition `#define XIO_FLAG_RESET_gm (0x0FFF)` -/
def XIO_FLAG_RESET_gm : Nat := 0x0FFF

/-- The masks listed under "static configuration states". -/
def configMasks : List Nat :=
  [XIO_FLAG_RD_bm, XIO_FLAG_WR_bm, XIO_FLAG_BLOCK_bm, XIO_FLAG_XOFF_bm,
   XIO_FLAG_ECHO_bm, XIO_FLAG_CRLF_bm, XIO_FLAG_IGNORECR_bm,
   XIO_FLAG_IGNORELF_bm, XIO_FLAG_LINEMODE_bm]

/-- The masks listed under "transient states". -/
def transientMasks : List Nat :=
  [XIO_FLAG_TX_MUTEX_bm, XIO_FLAG_EOL_bm, XIO_FLAG_EOF_bm, XIO_FLAG_IN_LINE_bm,
   XIO_FLAG_DO_XOFF_bm, XIO_FLAG_DO_XON_bm, XIO_FLAG_IN_XOFF_bm]

/-- All sixteen internal flag masks. -/
def flagMasks : List Nat := configMasks ++ transientMasks

/-- The C expression `(a & m) ? TRUE : FALSE`: the body of a query macro on an
argument `a` that is a plain word. -/
def bitEval (a m : Nat) : Nat := if a &&& m ≠ 0 then TRUE else FALSE

def READ (a : Nat) : Nat := bitEval a XIO_FLAG_RD_bm
def WRITE (a : Nat) : Nat := bitEval a XIO_FLAG_WR_bm
def BLOCKING (a : Nat) : Nat := bitEval a XIO_FLAG_BLOCK_bm
def EN_XOFF (a : Nat) : Nat := bitEval a XIO_FLAG_XOFF_bm
def ECHO (a : Nat) : Nat := bitEval a XIO_FLAG_ECHO_bm
def CRLF (a : Nat) : Nat := bitEval a XIO_FLAG_CRLF_bm
def IGNORECR (a : Nat) : Nat := bitEval a XIO_FLAG_IGNORECR_bm
def IGNORELF (a : Nat) : Nat := bitEval a XIO_FLAG_IGNORELF_bm
def LINEMODE (a : Nat) : Nat := bitEval a XIO_FLAG_LINEMODE_bm
def TX_MUTEX (a : Nat) : Nat := bitEval a XIO_FLAG_TX_MUTEX_bm
def IN_LINE (a : Nat) : Nat := bitEval a XIO_FLAG_IN_LINE_bm
def DO_XOFF (a : Nat) : Nat := bitEval a XIO_FLAG_DO_XOFF_bm
def DO_XON (a : Nat) : Nat := bitEval a XIO_FLAG_DO_XON_bm
def IN_XOFF (a : Nat) : Nat := bitEval a XIO_FLAG_IN_XOFF_bm

/-- The fourteen bit-evaluation macros the header defines. -/
def queryMacros : List (Nat → Nat) :=
  [READ, WRITE, BLOCKING, EN_XOFF, ECHO, CRLF, IGNORECR, IGNORELF, LINEMODE,
   TX_MUTEX, IN_LINE, DO_XOFF, DO_XON, IN_XOFF]

/-- The nine macros that query a configuration bit. -/
def configMacros : List (Nat → Nat) :=
  [READ, WRITE, BLOCKING, EN_XOFF, ECHO, CRLF, IGNORECR, IGNORELF, LINEMODE]

/-- A flag word is a `uint32_t`. -/
def IsFlagWord (a : Nat) : Prop := a < 2 ^ 32

instance (a : Nat) : Decidable (IsFlagWord a) := by
  unfold IsFlagWord; infer_instance

/-- Each of the fourteen query macros with the flag mask its body tests (its
own mask), in the order of the header. -/
def macroMasks : List ((Nat → Nat) × Nat) :=
  [(READ, XIO_FLAG_RD_bm), (WRITE, XIO_FLAG_WR_bm), (BLOCKING, XIO_FLAG_BLOCK_bm),
   (EN_XOFF, XIO_FLAG_XOFF_bm), (ECHO, XIO_FLAG_ECHO_bm), (CRLF, XIO_FLAG_CRLF_bm),
   (IGNORECR, XIO_FLAG_IGNORECR_bm), (IGNORELF, XIO_FLAG_IGNORELF_bm),
   (LINEMODE, XIO_FLAG_LINEMODE_bm), (TX_MUTEX, XIO_FLAG_TX_MUTEX_bm),
   (IN_LINE, XIO_FLAG_IN_LINE_bm), (DO_XOFF, XIO_FLAG_DO_XOFF_bm),
   (DO_XON, XIO_FLAG_DO_XON_bm), (IN_XOFF, XIO_FLAG_IN_XOFF_bm)]

/-- The C expression `~m` on a `uint32_t`: every one of the 32 bits inverted. -/
def not32 (m : Nat) : Nat := (2 ^ 32 - 1) ^^^ (m % 2 ^ 32)

/-- The text of a query macro argument, by its outermost operator: a plain
word (an identifier, a constant or a parenthesised expression), the expression
`a | m` that sets a flag, or the expression `a & ~m` that clears one. -/
inductive FlagArg where
  | word (a : Nat)
  | orMask (a m : Nat)
  | andNotMask (a m : Nat)
  deriving DecidableEq, Repr

/-- Value of the argument expression evaluated on its own. -/
def FlagArg.value : FlagArg → Nat
  | FlagArg.word a => a
  | FlagArg.orMask a m => a ||| m
  | FlagArg.andNotMask a m => a &&& not32 m

/-- The macro body `((a & mask) ? TRUE : FALSE)` with the argument text put in
place of `a`. The header writes the parameter without parentheses, so the
argument is parsed together with `& mask`: `a | m & mask` is `a | (m & mask)`
(`&` binds tighter than `|`), and `a & ~m & mask` is `(a & ~m) & mask` (`~`
binds tightest, `&` associates to the left). -/
def expandQuery (mask : Nat) : FlagArg → Nat
  | FlagArg.word a => if a &&& mask ≠ 0 then TRUE else FALSE
  | FlagArg.orMask a m => if a ||| (m &&& mask) ≠ 0 then TRUE else FALSE
  | FlagArg.andNotMask a m => if (a &&& not32 m) &&& mask ≠ 0 then TRUE else FALSE

/-! ## Definitions: `enum xioSignals`, ASCII definitions, signal characters -/

def XIO_SIG_OK : Nat := 0
def XIO_SIG_EAGAIN : Nat := XIO_SIG_OK + 1
def XIO_SIG_EOL : Nat := XIO_SIG_EAGAIN + 1
def XIO_SIG_EOF : Nat := XIO_SIG_EOL + 1
def XIO_SIG_KILL : Nat := XIO_SIG_EOF + 1
def XIO_SIG_TERM : Nat := XIO_SIG_KILL + 1
def XIO_SIG_PAUSE : Nat := XIO_SIG_TERM + 1
def XIO_SIG_RESUME : Nat := XIO_SIG_PAUSE + 1
def XIO_SIG_ESCAPE : Nat := XIO_SIG_RESUME + 1
def XIO_SIG_DELETE : Nat := XIO_SIG_ESCAPE + 1
def XIO_SIG_BELL : Nat := XIO_SIG_DELETE + 1

def NUL : Nat := 0x00
def ETX : Nat := 0x03
def BEL : Nat := 0x07
def BS : Nat := 0x08
def LF : Nat := 0x0A
def CR : Nat := 0x0D
def SHIFTOUT : Nat := 0x0E
def SHIFTIN : Nat := 0x0F
def XON : Nat := 0x11
def XOFF : Nat := 0x13
def ESC : Nat := 0x1B
def DEL : Nat := 0x7F

def KILL : Nat := ETX
def CTRL_C : Nat := ETX
def CTRL_G : Nat := BEL
def CTRL_H : Nat := BS
def CTRL_N : Nat := SHIFTOUT
def CTRL_O : Nat := SHIFTIN
def CTRL_Q : Nat := XON
def CTRL_S : Nat := XOFF
def CTRL_X : Nat := 0x18

/-- Header definition `#define SIG_KILL_CHAR (char)'!'` -/
def SIG_KILL_CHAR : Nat := Char.toNat '!'

/-- Header definition `#define SIG_TERM_CHAR (char)'!'` -/
def SIG_TERM_CHAR : Nat := Char.toNat '!'

/-- Header definition `#define SIG_PAUSE_CHAR (char)'@'` -/
def SIG_PAUSE_CHAR : Nat := Char.toNat '@'

/-- Header definition `#define SIG_RESUME_CHAR (char)'*'` -/
def SIG_RESUME_CHAR : Nat := Char.toNat '*'

/-- The signal character mappings: each `SIG_*_CHAR` with the `XIO_SIG_*` it stands for. -/
def signalMappings : List (Nat × Nat) :=
  [(SIG_KILL_CHAR, XIO_SIG_KILL), (SIG_TERM_CHAR, XIO_SIG_TERM),
   (SIG_PAUSE_CHAR, XIO_SIG_PAUSE), (SIG_RESUME_CHAR, XIO_SIG_RESUME)]

/-- The control character the comments of `enum xioSignals` and of the ASCII
definitions give for each of the four signals that have a `SIG_*_CHAR`. -/
def documentedSignalChars : List (Nat × Nat) :=
  [(XIO_SIG_KILL, ETX), (XIO_SIG_TERM, CTRL_X),
   (XIO_SIG_PAUSE, XOFF), (XIO_SIG_RESUME, XON)]

/-! ## Definitions: the circular buffer

The header only describes the buffers ("Notes on the circular buffers"); the
routines that implement them belong to the USART device sources.
-/

/-- One element of the `unsigned char` buffer arrays. -/
abbrev Byte := Fin 256

/-- Modelled from the spec: the Circular Buffer of the data model, "a fixed-size
byte array plus a head index and a tail index" (the USART sources holding
`rx_buf`, `rx_buf_head` and `rx_buf_tail` are missing). The capacity is the
length of `buf`. -/
structure CircBuf where
  buf : List Byte
  head : Nat
  tail : Nat
  deriving DecidableEq, Repr

/-- Modelled from the spec: the capacity of a buffer, the size of its array
(the USART sources and their `RX_BUFFER_SIZE` are missing). -/
def CircBuf.capacity (cb : CircBuf) : Nat := cb.buf.length

/-- Modelled from the spec: "decrement ... with wraparound (if head is at index
0, wrap to capacity-1, else head-1)" (the USART sources are missing). -/
def dec_wrap (capacity i : Nat) : Nat :=
  if i = 0 then capacity - 1 else i - 1

/-- Modelled from the spec: the result `{Ok, Full}` of `push_front` (the USART
sources are missing). -/
inductive PushResult where
  | Ok
  | Full
  deriving DecidableEq, Repr

/-- Modelled from the spec: the result `{Ok(byte), Empty}` of `pop_back` (the
USART sources are missing). -/
inductive PopResult where
  | Ok (b : Byte)
  | Empty
  deriving DecidableEq, Repr

/-- Modelled from the spec: the write algorithm of the Circular Buffer (the
USART put/ISR routines are missing): "decrement head with wraparound; if the
new head equals tail, the buffer is full — restore head to its prior value and
signal `Full` without storing; otherwise store the byte at the new head and
keep it as the committed head." -/
def push_front (cb : CircBuf) (b : Byte) : PushResult × CircBuf :=
  let prior := cb.head
  let moved : CircBuf := { cb with head := dec_wrap cb.capacity cb.head }
  if moved.head = moved.tail then
    (PushResult.Full, { moved with head := prior })
  else
    (PushResult.Ok, { moved with buf := moved.buf.set moved.head b })

/-- Modelled from the spec: the read algorithm of the Circular Buffer (the
USART get routines are missing): "if head equals tail, signal `Empty` ...;
otherwise decrement tail with the same wraparound rule, read the byte at the
new tail, and return it." -/
def pop_back (cb : CircBuf) : PopResult × CircBuf :=
  if cb.head = cb.tail then
    (PopResult.Empty, cb)
  else
    let moved : CircBuf := { cb with tail := dec_wrap cb.capacity cb.tail }
    (PopResult.Ok (moved.buf.getD moved.tail 0), moved)

/-- Modelled from the spec: "a sequence of N writes" — the bytes are written in
order with `push_front`; `none` as soon as one write reports `Full`. -/
def push_all : CircBuf → List Byte → Option CircBuf
  | cb, [] => some cb
  | cb, b :: bs =>
    match push_front cb b with
    | (PushResult.Ok, cb1) => push_all cb1 bs
    | (PushResult.Full, _) => none

/-- Modelled from the spec: "N reads" — `pop_back` is called `n` times and the
bytes are collected in the order read; `none` as soon as one read reports
`Empty`. -/
def pop_n : CircBuf → Nat → Option (List Byte × CircBuf)
  | cb, 0 => some ([], cb)
  | cb, n + 1 =>
    match pop_back cb with
    | (PopResult.Ok b, cb1) =>
      match pop_n cb1 n with
      | some (bs, cb2) => some (b :: bs, cb2)
      | none => none
    | (PopResult.Empty, _) => none

/-- Indices are inside the array. -/
def CircBuf.WellFormed (cb : CircBuf) : Prop :=
  cb.head < cb.capacity ∧ cb.tail < cb.capacity

instance (cb : CircBuf) : Decidable cb.WellFormed := by
  unfold CircBuf.WellFormed; infer_instance

/-- Number of bytes written and not yet read: the number of decrements that
take the tail to the head. -/
def CircBuf.count (cb : CircBuf) : Nat :=
  if cb.head ≤ cb.tail then cb.tail - cb.head else cb.tail + cb.capacity - cb.head

/-- Index reached from `t` by `k` decrements with wraparound (for `k` up to the capacity). -/
def idx_back (capacity t k : Nat) : Nat :=
  if k ≤ t then t - k else t + capacity - k

/-- The bytes written and not yet read, oldest first: the bytes the next reads
will return. -/
def CircBuf.contents (cb : CircBuf) : List Byte :=
  (List.range cb.count).map (fun k => cb.buf.getD (idx_back cb.capacity cb.tail (k + 1)) 0)

end Xio

/-! ## Lemmas on the flag masks -/

namespace Xio

theorem bit32_eq_two_pow (k : Nat) (hk : k < 32) : bit32 k = 2 ^ k := by
  unfold bit32
  rw [Nat.one_shiftLeft, Nat.mod_eq_of_lt (Nat.pow_lt_pow_right (by decide) hk)]

theorem and_two_pow_ne_zero_iff (a k : Nat) : a &&& 2 ^ k ≠ 0 ↔ a.testBit k = true := by
  constructor
  · intro h
    obtain ⟨i, hi⟩ := Nat.ne_zero_implies_bit_true h
    rw [Nat.testBit_and, Nat.testBit_two_pow, Bool.and_eq_true, decide_eq_true_eq] at hi
    obtain ⟨ha, rfl⟩ := hi
    exact ha
  · intro h h0
    have h1 : (a &&& 2 ^ k).testBit k = true := by
      rw [Nat.testBit_and, Nat.testBit_two_pow_self, h]; rfl
    rw [h0, Nat.zero_testBit] at h1
    exact Bool.false_ne_true h1

theorem bitEval_bit32 (a k : Nat) (hk : k < 32) :
    bitEval a (bit32 k) = if a.testBit k = true then TRUE else FALSE := by
  unfold bitEval
  rw [bit32_eq_two_pow k hk]
  by_cases h : a.testBit k = true
  · rw [if_pos ((and_two_pow_ne_zero_iff a k).2 h), if_pos h]
  · rw [if_neg (fun h1 => h ((and_two_pow_ne_zero_iff a k).1 h1)), if_neg h]

theorem bitEval_eq_TRUE_iff (a m : Nat) : bitEval a m = TRUE ↔ a &&& m ≠ 0 := by
  unfold bitEval
  by_cases h : a &&& m ≠ 0
  · simp [h]
  · simp [h, TRUE, FALSE]

theorem bitEval_reset (f k : Nat) (hk : k < 12) :
    bitEval (f &&& XIO_FLAG_RESET_gm) (bit32 k) = bitEval f (bit32 k) := by
  have hmask : XIO_FLAG_RESET_gm &&& bit32 k = bit32 k := by
    have : ∀ j, j < 12 → XIO_FLAG_RESET_gm &&& bit32 j = bit32 j := by decide
    exact this k hk
  unfold bitEval
  rw [Nat.and_assoc, hmask]

end Xio

/-! ## Theorems: control flags -/

namespace Xio

/-- C3 (evaluation on the header): the reset mask `XIO_FLAG_RESET_gm = 0x0FFF`
keeps bits 0..11, so on the flag word `0x0E00` (TX_MUTEX, EOL and EOF set) the
reset value `f & XIO_FLAG_RESET_gm` still has the three transient bits
`XIO_FLAG_TX_MUTEX_bm`, `XIO_FLAG_EOL_bm` and `XIO_FLAG_EOF_bm` set: the word is
returned unchanged. -/
theorem reset_mask_keeps_tx_mutex_eol_eof :
    IsFlagWord 0x0E00 ∧
    0x0E00 &&& XIO_FLAG_RESET_gm = 0x0E00 ∧
    (0x0E00 &&& XIO_FLAG_RESET_gm) &&& XIO_FLAG_TX_MUTEX_bm ≠ 0 ∧
    (0x0E00 &&& XIO_FLAG_RESET_gm) &&& XIO_FLAG_EOL_bm ≠ 0 ∧
    (0x0E00 &&& XIO_FLAG_RESET_gm) &&& XIO_FLAG_EOF_bm ≠ 0 ∧
    TX_MUTEX (0x0E00 &&& XIO_FLAG_RESET_gm) = TRUE := by
  decide

/-- C4 (as stated, refuted): it is not the case that every one of the sixteen
internal flag masks has a query macro that is TRUE exactly when the masked
value is non-zero: none of the fourteen macros does so for `XIO_FLAG_EOL_bm`
(all of them return FALSE on the flag word that has only the EOL bit set). -/
theorem not_every_flag_has_query_macro :
    ¬ (∀ m ∈ flagMasks, ∃ P ∈ queryMacros,
        ∀ a, IsFlagWord a → (P a = TRUE ↔ a &&& m ≠ 0)) := by
  intro h
  obtain ⟨P, hP, hPa⟩ := h XIO_FLAG_EOL_bm (by simp [flagMasks, transientMasks])
  have hset : XIO_FLAG_EOL_bm &&& XIO_FLAG_EOL_bm ≠ 0 := by decide
  have hT := (hPa XIO_FLAG_EOL_bm (by decide)).2 hset
  simp only [queryMacros, List.mem_cons, List.mem_singleton, List.not_mem_nil, or_false] at hP
  rcases hP with h | h | h | h | h | h | h | h | h | h | h | h | h | h <;>
    (subst h; revert hT; decide)

/-- C4 (amended): every internal flag mask other than `XIO_FLAG_EOL_bm` and
`XIO_FLAG_EOF_bm` has a macro among the fourteen defined query macros that, on
every flag word `a`, is TRUE exactly when `a & m` is non-zero; and for each of
`XIO_FLAG_EOL_bm` and `XIO_FLAG_EOF_bm` no defined query macro does. -/
theorem query_macro_for_each_flag_but_eol_eof :
    (∀ m ∈ flagMasks, m ≠ XIO_FLAG_EOL_bm → m ≠ XIO_FLAG_EOF_bm →
      ∃ P ∈ queryMacros, ∀ a, IsFlagWord a → (P a = TRUE ↔ a &&& m ≠ 0)) ∧
    (∀ m, m = XIO_FLAG_EOL_bm ∨ m = XIO_FLAG_EOF_bm →
      ¬ ∃ P ∈ queryMacros, ∀ a, IsFlagWord a → (P a = TRUE ↔ a &&& m ≠ 0)) := by
  constructor
  · intro m hm hEOL hEOF
    simp only [flagMasks, configMasks, transientMasks, List.cons_append, List.nil_append,
      List.mem_cons, List.mem_singleton, List.not_mem_nil, or_false] at hm
    rcases hm with h | h | h | h | h | h | h | h | h | h | h | h | h | h | h | h
    · exact ⟨READ, by simp [queryMacros], fun a _ => h ▸ bitEval_eq_TRUE_iff a _⟩
    · exact ⟨WRITE, by simp [queryMacros], fun a _ => h ▸ bitEval_eq_TRUE_iff a _⟩
    · exact ⟨BLOCKING, by simp [queryMacros], fun a _ => h ▸ bitEval_eq_TRUE_iff a _⟩
    · exact ⟨EN_XOFF, by simp [queryMacros], fun a _ => h ▸ bitEval_eq_TRUE_iff a _⟩
    · exact ⟨ECHO, by simp [queryMacros], fun a _ => h ▸ bitEval_eq_TRUE_iff a _⟩
    · exact ⟨CRLF, by simp [queryMacros], fun a _ => h ▸ bitEval_eq_TRUE_iff a _⟩
    · exact ⟨IGNORECR, by simp [queryMacros], fun a _ => h ▸ bitEval_eq_TRUE_iff a _⟩
    · exact ⟨IGNORELF, by simp [queryMacros], fun a _ => h ▸ bitEval_eq_TRUE_iff a _⟩
    · exact ⟨LINEMODE, by simp [queryMacros], fun a _ => h ▸ bitEval_eq_TRUE_iff a _⟩
    · exact ⟨TX_MUTEX, by simp [queryMacros], fun a _ => h ▸ bitEval_eq_TRUE_iff a _⟩
    · exact absurd h hEOL
    · exact absurd h hEOF
    · exact ⟨IN_LINE, by simp [queryMacros], fun a _ => h ▸ bitEval_eq_TRUE_iff a _⟩
    · exact ⟨DO_XOFF, by simp [queryMacros], fun a _ => h ▸ bitEval_eq_TRUE_iff a _⟩
    · exact ⟨DO_XON, by simp [queryMacros], fun a _ => h ▸ bitEval_eq_TRUE_iff a _⟩
    · exact ⟨IN_XOFF, by simp [queryMacros], fun a _ => h ▸ bitEval_eq_TRUE_iff a _⟩
  · intro m hm ⟨P, hP, hPa⟩
    have hset : m &&& m ≠ 0 := by rcases hm with h | h <;> (subst h; decide)
    have hw : IsFlagWord m := by rcases hm with h | h <;> (subst h; decide)
    have hT := (hPa m hw).2 hset
    simp only [queryMacros, List.mem_cons, List.mem_singleton, List.not_mem_nil, or_false] at hP
    rcases hm with hm | hm <;> subst hm <;>
      rcases hP with h | h | h | h | h | h | h | h | h | h | h | h | h | h <;>
      (subst h; revert hT; decide)

/-- C4 (amended), applied to the read-enable flag: `XIO_FLAG_RD_bm` has a
dedicated query macro. -/
theorem query_macro_for_each_flag_but_eol_eof_witness :
    XIO_FLAG_RD_bm ∈ flagMasks ∧ XIO_FLAG_RD_bm ≠ XIO_FLAG_EOL_bm ∧
    XIO_FLAG_RD_bm ≠ XIO_FLAG_EOF_bm ∧
    ∃ P ∈ queryMacros, ∀ a, IsFlagWord a → (P a = TRUE ↔ a &&& XIO_FLAG_RD_bm ≠ 0) :=
  ⟨by decide, by decide, by decide,
   query_macro_for_each_flag_but_eol_eof.1 XIO_FLAG_RD_bm (by decide) (by decide) (by decide)⟩

end Xio

namespace Xio

/-- C5: for every 32-bit flag word `a`, each of the fourteen query macros
returns exactly TRUE (which is 1) when the bit of its own flag mask is set in
`a` and exactly FALSE (which is 0) otherwise, whatever the other bits are. -/
theorem query_macros_return_true_or_false (a : Nat) (_ha : IsFlagWord a) :
    TRUE = 1 ∧ FALSE = 0 ∧
    READ a = (if a.testBit 0 = true then TRUE else FALSE) ∧
    WRITE a = (if a.testBit 1 = true then TRUE else FALSE) ∧
    BLOCKING a = (if a.testBit 2 = true then TRUE else FALSE) ∧
    EN_XOFF a = (if a.testBit 3 = true then TRUE else FALSE) ∧
    ECHO a = (if a.testBit 4 = true then TRUE else FALSE) ∧
    CRLF a = (if a.testBit 5 = true then TRUE else FALSE) ∧
    IGNORECR a = (if a.testBit 6 = true then TRUE else FALSE) ∧
    IGNORELF a = (if a.testBit 7 = true then TRUE else FALSE) ∧
    LINEMODE a = (if a.testBit 8 = true then TRUE else FALSE) ∧
    TX_MUTEX a = (if a.testBit 9 = true then TRUE else FALSE) ∧
    IN_LINE a = (if a.testBit 12 = true then TRUE else FALSE) ∧
    DO_XOFF a = (if a.testBit 13 = true then TRUE else FALSE) ∧
    DO_XON a = (if a.testBit 14 = true then TRUE else FALSE) ∧
    IN_XOFF a = (if a.testBit 15 = true then TRUE else FALSE) ∧
    (∀ P ∈ queryMacros, P a = 1 ∨ P a = 0) := by
  refine ⟨rfl, rfl, bitEval_bit32 a 0 (by decide), bitEval_bit32 a 1 (by decide),
    bitEval_bit32 a 2 (by decide), bitEval_bit32 a 3 (by decide),
    bitEval_bit32 a 4 (by decide), bitEval_bit32 a 5 (by decide),
    bitEval_bit32 a 6 (by decide), bitEval_bit32 a 7 (by decide),
    bitEval_bit32 a 8 (by decide), bitEval_bit32 a 9 (by decide),
    bitEval_bit32 a 12 (by decide), bitEval_bit32 a 13 (by decide),
    bitEval_bit32 a 14 (by decide), bitEval_bit32 a 15 (by decide), ?_⟩
  intro P hP
  have hval : ∀ m, bitEval a m = 1 ∨ bitEval a m = 0 := by
    intro m
    unfold bitEval
    by_cases h : a &&& m ≠ 0
    · left; rw [if_pos h]; rfl
    · right; rw [if_neg h]; rfl
  simp only [queryMacros, List.mem_cons, List.mem_singleton, List.not_mem_nil, or_false] at hP
  rcases hP with h | h | h | h | h | h | h | h | h | h | h | h | h | h <;>
    (subst h; exact hval _)

/-- C5 on the flag word `0x8005` (bits 0, 2 and 15 set). -/
theorem query_macros_return_true_or_false_witness :
    IsFlagWord 0x8005 ∧ READ 0x8005 = 1 ∧ WRITE 0x8005 = 0 ∧ BLOCKING 0x8005 = 1 ∧
    IN_XOFF 0x8005 = 1 ∧ DO_XON 0x8005 = 0 :=
  have h := query_macros_return_true_or_false 0x8005 (by decide)
  ⟨by decide, by rw [h.2.2.1]; decide, by rw [h.2.2.2.1]; decide,
   by rw [h.2.2.2.2.1]; decide, by decide, by decide⟩

/-- C10: for every 32-bit flag word `f`, each of the nine configuration
predicates returns the same value on `f & XIO_FLAG_RESET_gm` as on `f`, and
masking with `XIO_FLAG_RESET_gm` is idempotent. -/
theorem reset_mask_preserves_config_bits (f : Nat) (hf : IsFlagWord f) :
    READ (f &&& XIO_FLAG_RESET_gm) = READ f ∧
    WRITE (f &&& XIO_FLAG_RESET_gm) = WRITE f ∧
    BLOCKING (f &&& XIO_FLAG_RESET_gm) = BLOCKING f ∧
    EN_XOFF (f &&& XIO_FLAG_RESET_gm) = EN_XOFF f ∧
    ECHO (f &&& XIO_FLAG_RESET_gm) = ECHO f ∧
    CRLF (f &&& XIO_FLAG_RESET_gm) = CRLF f ∧
    IGNORECR (f &&& XIO_FLAG_RESET_gm) = IGNORECR f ∧
    IGNORELF (f &&& XIO_FLAG_RESET_gm) = IGNORELF f ∧
    LINEMODE (f &&& XIO_FLAG_RESET_gm) = LINEMODE f ∧
    (f &&& XIO_FLAG_RESET_gm) &&& XIO_FLAG_RESET_gm = f &&& XIO_FLAG_RESET_gm ∧
    IsFlagWord (f &&& XIO_FLAG_RESET_gm) := by
  refine ⟨bitEval_reset f 0 (by decide), bitEval_reset f 1 (by decide),
    bitEval_reset f 2 (by decide), bitEval_reset f 3 (by decide),
    bitEval_reset f 4 (by decide), bitEval_reset f 5 (by decide),
    bitEval_reset f 6 (by decide), bitEval_reset f 7 (by decide),
    bitEval_reset f 8 (by decide), ?_, ?_⟩
  · rw [Nat.and_assoc, Nat.and_self]
  · exact Nat.lt_of_le_of_lt Nat.and_le_left hf

/-- C10 on the flag word `0xFFFF` (all sixteen flags set): the reset value is
`0x0FFF` and the nine configuration predicates are still TRUE. -/
theorem reset_mask_preserves_config_bits_witness :
    IsFlagWord 0xFFFF ∧ 0xFFFF &&& XIO_FLAG_RESET_gm = 0x0FFF ∧
    READ (0xFFFF &&& XIO_FLAG_RESET_gm) = READ 0xFFFF ∧
    LINEMODE (0xFFFF &&& XIO_FLAG_RESET_gm) = LINEMODE 0xFFFF ∧
    LINEMODE 0xFFFF = TRUE :=
  have h := reset_mask_preserves_config_bits 0xFFFF (by decide)
  ⟨by decide, by decide, h.1, h.2.2.2.2.2.2.2.2.1, by decide⟩

end Xio

/-! ## Theorems: signal characters -/

namespace Xio

/-- C6 (evaluation on the header): none of the four `SIG_*_CHAR` definitions is
the control character documented for its signal. `SIG_KILL_CHAR` and
`SIG_TERM_CHAR` are `'!'` (0x21), not `ETX` (0x03) and `CTRL_X` (0x18);
`SIG_PAUSE_CHAR` is `'@'` (0x40), not `XOFF` (0x13); `SIG_RESUME_CHAR` is `'*'`
(0x2A), not `XON` (0x11); and none of the four is below 0x20. -/
theorem signal_chars_are_not_documented_control_chars :
    SIG_KILL_CHAR = 0x21 ∧ ETX = 0x03 ∧ SIG_KILL_CHAR ≠ ETX ∧
    SIG_TERM_CHAR = 0x21 ∧ CTRL_X = 0x18 ∧ SIG_TERM_CHAR ≠ CTRL_X ∧
    SIG_PAUSE_CHAR = 0x40 ∧ XOFF = 0x13 ∧ SIG_PAUSE_CHAR ≠ XOFF ∧
    SIG_RESUME_CHAR = 0x2A ∧ XON = 0x11 ∧ SIG_RESUME_CHAR ≠ XON ∧
    (∀ p ∈ signalMappings, ¬ p.1 < 0x20) ∧
    (∀ p ∈ signalMappings, ∀ q ∈ documentedSignalChars, p.2 = q.1 → p.1 ≠ q.2) := by
  decide

/-- C7 (evaluation on the header): the signal characters are not pairwise
distinct. `SIG_KILL_CHAR` and `SIG_TERM_CHAR` are the same byte `'!'`, although
`XIO_SIG_KILL` and `XIO_SIG_TERM` are different signals, so the signal
mappings give the byte `'!'` two signal values and no byte stands for
`XIO_SIG_TERM` alone. -/
theorem kill_and_term_share_one_char :
    SIG_KILL_CHAR = SIG_TERM_CHAR ∧ XIO_SIG_KILL ≠ XIO_SIG_TERM ∧
    ¬ (signalMappings.map Prod.fst).Nodup ∧
    ¬ (∀ p ∈ signalMappings, ∀ q ∈ signalMappings, p.1 = q.1 → p.2 = q.2) ∧
    (∀ p ∈ signalMappings, p.2 = XIO_SIG_TERM →
      ∃ q ∈ signalMappings, q.1 = p.1 ∧ q.2 ≠ XIO_SIG_TERM) := by
  decide

/-! ## Theorems: status codes and device identifiers -/

/-- C8: `enum xioCodes` has exactly thirteen codes with the consecutive values
0..12 in declaration order; `XIO_OK` is 0, every other code is non-zero, the
codes are pairwise distinct, `XIO_ERRNO_MAX` is the largest code
(`XIO_BUFFER_FULL_NON_FATAL` = 12), and every code fits the 8-bit status
field. -/
theorem xioCodes_consecutive_from_zero :
    xioCodes.length = 13 ∧ xioCodes = List.range 13 ∧
    XIO_OK = 0 ∧ XIO_ERR = 1 ∧ XIO_EAGAIN = 2 ∧ XIO_NOOP = 3 ∧ XIO_COMPLETE = 4 ∧
    XIO_EOL = 5 ∧ XIO_EOF = 6 ∧ XIO_FILE_NOT_OPEN = 7 ∧ XIO_FILE_SIZE_EXCEEDED = 8 ∧
    XIO_NO_SUCH_DEVICE = 9 ∧ XIO_BUFFER_EMPTY = 10 ∧ XIO_BUFFER_FULL_FATAL = 11 ∧
    XIO_BUFFER_FULL_NON_FATAL = 12 ∧
    (∀ c ∈ xioCodes.tail, c ≠ 0) ∧ xioCodes.Nodup ∧
    XIO_ERRNO_MAX = 12 ∧ XIO_ERRNO_MAX = XIO_BUFFER_FULL_NON_FATAL ∧
    (∀ c ∈ xioCodes, c ≤ XIO_ERRNO_MAX) ∧ XIO_ERRNO_MAX ∈ xioCodes ∧
    (∀ c ∈ xioCodes, c < UINT8_RANGE) := by
  decide

/-- C9: every device identifier below `XIO_DEV_COUNT` indexes its family array
in bounds (the USART offsets are below `XIO_DEV_USART_COUNT`, the FILE offsets
below `XIO_DEV_FILE_COUNT`), two different devices of one family have different
offsets, every slot of `us[]` and `fs[]` belongs to a device, and
`XIO_DEV_USART_COUNT + XIO_DEV_FILE_COUNT = XIO_DEV_COUNT`. -/
theorem device_offsets_in_bounds_and_distinct :
    XIO_DEV_COUNT = 5 ∧
    XIO_DEV_RS485_OFFSET < XIO_DEV_USART_COUNT ∧
    XIO_DEV_USB_OFFSET < XIO_DEV_USART_COUNT ∧
    XIO_DEV_TTL_OFFSET < XIO_DEV_USART_COUNT ∧
    XIO_DEV_PGM_OFFSET < XIO_DEV_FILE_COUNT ∧
    XIO_DEV_EEP_OFFSET < XIO_DEV_FILE_COUNT ∧
    [XIO_DEV_RS485_OFFSET, XIO_DEV_USB_OFFSET, XIO_DEV_TTL_OFFSET].Nodup ∧
    [XIO_DEV_PGM_OFFSET, XIO_DEV_EEP_OFFSET].Nodup ∧
    XIO_DEV_USART_COUNT + XIO_DEV_FILE_COUNT = XIO_DEV_COUNT ∧
    (∀ d, d < XIO_DEV_COUNT → devOffset d < familyCount (devFamily d)) ∧
    (∀ d, d < XIO_DEV_COUNT → ∀ e, e < XIO_DEV_COUNT →
      devFamily d = devFamily e → devOffset d = devOffset e → d = e) ∧
    (∀ i, i < XIO_DEV_USART_COUNT →
      ∃ d, d < XIO_DEV_COUNT ∧ devFamily d = DevFamily.usart ∧ devOffset d = i) ∧
    (∀ i, i < XIO_DEV_FILE_COUNT →
      ∃ d, d < XIO_DEV_COUNT ∧ devFamily d = DevFamily.file ∧ devOffset d = i) := by
  decide

end Xio

/-! ## Lemmas on the circular buffer -/

namespace Xio

theorem count_lt_capacity (cb : CircBuf) (hwf : cb.WellFormed) : cb.count < cb.capacity := by
  obtain ⟨hh, ht⟩ := hwf
  unfold CircBuf.count
  split <;> omega

theorem count_eq_zero_iff (cb : CircBuf) (hwf : cb.WellFormed) :
    cb.count = 0 ↔ cb.head = cb.tail := by
  obtain ⟨hh, ht⟩ := hwf
  unfold CircBuf.count
  split <;> omega

theorem contents_length (cb : CircBuf) : cb.contents.length = cb.count := by
  simp [CircBuf.contents]

/-- Arithmetic of one more decrement of the head, with `n` the number of
unread bytes: the new head is not the tail, is in range, is `n + 1` decrements
behind the tail, and differs from the places of the unread bytes. -/
theorem dec_wrap_head_facts (C h t : Nat) (hh : h < C) (ht : t < C)
    (hroom : (if h ≤ t then t - h else t + C - h) + 1 < C) :
    dec_wrap C h ≠ t ∧ dec_wrap C h < C ∧
    (if dec_wrap C h ≤ t then t - dec_wrap C h else t + C - dec_wrap C h)
      = (if h ≤ t then t - h else t + C - h) + 1 ∧
    idx_back C t ((if h ≤ t then t - h else t + C - h) + 1) = dec_wrap C h ∧
    ∀ k, k < (if h ≤ t then t - h else t + C - h) → dec_wrap C h ≠ idx_back C t (k + 1) := by
  unfold dec_wrap idx_back
  refine ⟨?_, ?_, ?_, ?_, ?_⟩
  · split_ifs at hroom ⊢ <;> omega
  · split_ifs <;> omega
  · split_ifs at hroom ⊢ <;> omega
  · split_ifs at hroom ⊢ <;> omega
  · intro k hk
    split_ifs at hroom hk ⊢ <;> omega

/-- Arithmetic of one decrement of the tail of a non-empty buffer. -/
theorem dec_wrap_tail_facts (C h t : Nat) (hh : h < C) (ht : t < C)
    (hne : 0 < (if h ≤ t then t - h else t + C - h)) :
    h ≠ t ∧ dec_wrap C t < C ∧
    (if h ≤ dec_wrap C t then dec_wrap C t - h else dec_wrap C t + C - h) + 1
      = (if h ≤ t then t - h else t + C - h) ∧
    idx_back C t 1 = dec_wrap C t ∧
    ∀ k, k + 1 < (if h ≤ t then t - h else t + C - h) →
      idx_back C (dec_wrap C t) (k + 1) = idx_back C t (k + 2) := by
  unfold dec_wrap idx_back
  refine ⟨?_, ?_, ?_, ?_, ?_⟩
  · split_ifs at hne <;> omega
  · split_ifs <;> omega
  · split_ifs at hne ⊢ <;> omega
  · split_ifs at hne ⊢ <;> omega
  · intro k hk
    split_ifs at hne hk ⊢ <;> omega

/-- A write into a buffer that is not full: it reports `Ok`, moves only the
head, and appends the byte to the unread contents. -/
theorem push_front_ok (cb : CircBuf) (b : Byte) (hwf : cb.WellFormed)
    (hroom : cb.count + 1 < cb.capacity) :
    ∃ cb1, push_front cb b = (PushResult.Ok, cb1) ∧ cb1.WellFormed ∧
      cb1.capacity = cb.capacity ∧ cb1.tail = cb.tail ∧
      cb1.count = cb.count + 1 ∧ cb1.contents = cb.contents ++ [b] := by
  obtain ⟨buf, h, t⟩ := cb
  simp only [CircBuf.WellFormed, CircBuf.capacity, CircBuf.count] at hwf hroom
  obtain ⟨hh, ht⟩ := hwf
  obtain ⟨hne, hlt, hcnt, hidx, hidx_ne⟩ := dec_wrap_head_facts buf.length h t hh ht hroom
  refine ⟨{ buf := buf.set (dec_wrap buf.length h) b,
            head := dec_wrap buf.length h, tail := t }, ?_, ?_, ?_, rfl, ?_, ?_⟩
  · simp only [push_front, CircBuf.capacity]
    rw [if_neg hne]
  · simp only [CircBuf.WellFormed, CircBuf.capacity, List.length_set]
    exact ⟨hlt, ht⟩
  · simp only [CircBuf.capacity, List.length_set]
  · simp only [CircBuf.count, CircBuf.capacity, List.length_set]
    exact hcnt
  · simp only [CircBuf.contents, CircBuf.count, CircBuf.capacity, List.length_set]
    rw [hcnt, List.range_succ, List.map_append]
    congr 1
    · apply List.map_congr_left
      intro k hk
      have hk1 := List.mem_range.1 hk
      simp only [List.getD_eq_getElem?_getD]
      rw [List.getElem?_set_ne (hidx_ne k hk1)]
    · simp only [List.getD_eq_getElem?_getD, List.map_cons, List.map_nil]
      rw [hidx, List.getElem?_set_self hlt]
      rfl

/-- A read from a buffer that is not empty: it reports `Ok` with the oldest
unread byte, moves only the tail, and leaves the remaining unread bytes. -/
theorem pop_back_ok (cb : CircBuf) (hwf : cb.WellFormed) (hne : 0 < cb.count) :
    ∃ b cb1, pop_back cb = (PopResult.Ok b, cb1) ∧ cb1.WellFormed ∧
      cb1.capacity = cb.capacity ∧ cb1.head = cb.head ∧
      cb1.count + 1 = cb.count ∧ cb.contents = b :: cb1.contents := by
  obtain ⟨buf, h, t⟩ := cb
  simp only [CircBuf.WellFormed, CircBuf.capacity, CircBuf.count] at hwf hne
  obtain ⟨hh, ht⟩ := hwf
  obtain ⟨hht, hlt, hcnt, hidx, hidx_eq⟩ := dec_wrap_tail_facts buf.length h t hh ht hne
  refine ⟨buf.getD (dec_wrap buf.length t) 0,
    { buf := buf, head := h, tail := dec_wrap buf.length t }, ?_, ?_, rfl, rfl, ?_, ?_⟩
  · simp only [pop_back, CircBuf.capacity]
    rw [if_neg hht]
  · simp only [CircBuf.WellFormed, CircBuf.capacity]
    exact ⟨hh, hlt⟩
  · simp only [CircBuf.count, CircBuf.capacity]
    exact hcnt
  · simp only [CircBuf.contents, CircBuf.count, CircBuf.capacity]
    rw [← hcnt, List.range_succ_eq_map, List.map_cons, List.map_map, hidx]
    congr 1
    apply List.map_congr_left
    intro k hk
    have hk1 := List.mem_range.1 hk
    simp only [Function.comp]
    rw [hidx_eq k (by omega)]

end Xio

namespace Xio

/-- Writing a sequence that fits: every write reports `Ok` and the bytes are
appended, in order, to the unread contents. -/
theorem push_all_ok (bs : List Byte) : ∀ (cb : CircBuf), cb.WellFormed →
    cb.count + bs.length < cb.capacity →
    ∃ cb1, push_all cb bs = some cb1 ∧ cb1.WellFormed ∧ cb1.capacity = cb.capacity ∧
      cb1.count = cb.count + bs.length ∧ cb1.contents = cb.contents ++ bs := by
  induction bs with
  | nil =>
    intro cb hwf _
    exact ⟨cb, rfl, hwf, rfl, rfl, (List.append_nil _).symm⟩
  | cons b rest ih =>
    intro cb hwf hroom
    rw [List.length_cons] at hroom
    obtain ⟨cb1, hpush, hwf1, hcap1, _, hcnt1, hcont1⟩ :=
      push_front_ok cb b hwf (by omega)
    obtain ⟨cb2, hall, hwf2, hcap2, hcnt2, hcont2⟩ :=
      ih cb1 hwf1 (by rw [hcnt1, hcap1]; omega)
    refine ⟨cb2, ?_, hwf2, hcap2.trans hcap1, ?_, ?_⟩
    · simp only [push_all, hpush]
      exact hall
    · rw [hcnt2, hcnt1, List.length_cons]; omega
    · rw [hcont2, hcont1, List.append_assoc]; rfl

/-- Reading `n` of the unread bytes: every read reports `Ok` and the reads
return the first `n` unread bytes, oldest first. -/
theorem pop_n_ok (n : Nat) : ∀ (cb : CircBuf), cb.WellFormed → n ≤ cb.count →
    ∃ cb1, pop_n cb n = some (cb.contents.take n, cb1) ∧ cb1.WellFormed ∧
      cb1.capacity = cb.capacity ∧ cb1.count + n = cb.count := by
  induction n with
  | zero =>
    intro cb hwf _
    exact ⟨cb, rfl, hwf, rfl, rfl⟩
  | succ n ih =>
    intro cb hwf hn
    obtain ⟨b, cb1, hpop, hwf1, hcap1, _, hcnt1, hcont1⟩ := pop_back_ok cb hwf (by omega)
    obtain ⟨cb2, hrest, hwf2, hcap2, hcnt2⟩ := ih cb1 hwf1 (by omega)
    refine ⟨cb2, ?_, hwf2, hcap2.trans hcap1, by omega⟩
    simp only [pop_n, hpop, hrest, hcont1, List.take_succ_cons]

/-! ## Theorems: circular buffer -/

/-- C1: on a circular buffer of capacity `C ≥ 2` that starts empty
(`head = tail`, an index of the array), writing bytes `b1..bN` with `N ≤ C - 1`
to the head and then reading `N` times from the tail succeeds every time, the
reads return `b1..bN` in the order written, and afterwards `head = tail` and a
further read reports `Empty`. -/
theorem fifo_write_then_read (cb : CircBuf) (bs : List Byte)
    (_hC : 2 ≤ cb.capacity) (hidx : cb.head < cb.capacity) (hempty : cb.head = cb.tail)
    (hN : bs.length ≤ cb.capacity - 1) :
    ∃ cb1 cb2, push_all cb bs = some cb1 ∧ pop_n cb1 bs.length = some (bs, cb2) ∧
      cb2.head = cb2.tail ∧ (pop_back cb2).1 = PopResult.Empty := by
  have hwf : cb.WellFormed := ⟨hidx, hempty ▸ hidx⟩
  have hcnt : cb.count = 0 := (count_eq_zero_iff cb hwf).2 hempty
  have hcont : cb.contents = [] := List.eq_nil_of_length_eq_zero ((contents_length cb).trans hcnt)
  obtain ⟨cb1, hall, hwf1, _, hcnt1, hcont1⟩ := push_all_ok bs cb hwf (by omega)
  obtain ⟨cb2, hpop, hwf2, _, hcnt2⟩ := pop_n_ok bs.length cb1 hwf1 (by omega)
  have hcont1 : cb1.contents = bs := by rw [hcont1, hcont, List.nil_append]
  rw [hcont1, List.take_length] at hpop
  have hht : cb2.head = cb2.tail := (count_eq_zero_iff cb2 hwf2).1 (by omega)
  refine ⟨cb1, cb2, hall, hpop, hht, ?_⟩
  simp only [pop_back]
  rw [if_pos hht]

/-- C1 on a buffer of capacity 4 whose three usable places are all written:
starting empty at index 1, the bytes 10, 20, 30 are written and read back in
the same order, and the buffer ends empty at index 2. -/
theorem fifo_write_then_read_witness :
    push_all ⟨[0, 0, 0, 0], 1, 1⟩ [10, 20, 30] = some ⟨[10, 0, 30, 20], 2, 1⟩ ∧
    pop_n ⟨[10, 0, 30, 20], 2, 1⟩ 3 = some ([10, 20, 30], ⟨[10, 0, 30, 20], 2, 2⟩) ∧
    ∃ cb1 cb2, push_all ⟨[0, 0, 0, 0], 1, 1⟩ [10, 20, 30] = some cb1 ∧
      pop_n cb1 3 = some ([10, 20, 30], cb2) ∧
      cb2.head = cb2.tail ∧ (pop_back cb2).1 = PopResult.Empty :=
  ⟨by decide, by decide,
   fifo_write_then_read ⟨[0, 0, 0, 0], 1, 1⟩ [10, 20, 30]
     (by decide) (by decide) (by decide) (by decide)⟩

/-- C2: in every buffer state in which decrementing the head (with
wraparound) would make it equal the tail, a write returns `Full` and leaves
the head index, the tail index and every stored byte as they were; the unread
bytes are the same as before. -/
theorem push_front_full_leaves_buffer (cb : CircBuf) (b : Byte)
    (hfull : dec_wrap cb.capacity cb.head = cb.tail) :
    push_front cb b = (PushResult.Full, cb) ∧
    (push_front cb b).2.head = cb.head ∧ (push_front cb b).2.tail = cb.tail ∧
    (push_front cb b).2.buf = cb.buf ∧ (push_front cb b).2.contents = cb.contents := by
  have h : push_front cb b = (PushResult.Full, cb) := by
    simp only [push_front]
    rw [if_pos hfull]
  rw [h]
  exact ⟨rfl, rfl, rfl, rfl, rfl⟩

/-- C2 on a full buffer of capacity 3 holding the unread bytes 7 and 9: a
write of 5 reports `Full` and nothing changes. -/
theorem push_front_full_leaves_buffer_witness :
    dec_wrap (CircBuf.capacity ⟨[0, 9, 7], 1, 0⟩) 1 = 0 ∧
    CircBuf.contents ⟨[0, 9, 7], 1, 0⟩ = [7, 9] ∧
    push_front ⟨[0, 9, 7], 1, 0⟩ 5 = (PushResult.Full, ⟨[0, 9, 7], 1, 0⟩) :=
  ⟨by decide, by decide, (push_front_full_leaves_buffer ⟨[0, 9, 7], 1, 0⟩ 5 (by decide)).1⟩

end Xio

/-! ## Lemmas on setting and clearing one flag -/

namespace Xio

theorem testBit_not32_two_pow (j k : Nat) (hj : j < 32) (hk : k < 32) (hne : j ≠ k) :
    (not32 (2 ^ j)).testBit k = true := by
  unfold not32
  rw [Nat.mod_eq_of_lt (Nat.pow_lt_pow_right (by decide) hj), Nat.testBit_xor,
    Nat.testBit_two_pow_sub_one, Nat.testBit_two_pow_of_ne hne, decide_eq_true hk]
  rfl

/-- On a plain word the expansion is the bit evaluation of the word. -/
theorem expandQuery_word (mask a : Nat) : expandQuery mask (FlagArg.word a) = bitEval a mask :=
  rfl

/-- On the argument text `a | m` the mask reaches `m` only: the expansion is
TRUE as soon as `a` is non-zero, whatever the mask. -/
theorem expandQuery_orMask_of_ne_zero (mask a m : Nat) (ha : a ≠ 0) :
    expandQuery mask (FlagArg.orMask a m) = TRUE := by
  have hne : a ||| (m &&& mask) ≠ 0 := by
    intro h0
    obtain ⟨i, hi⟩ := Nat.ne_zero_implies_bit_true ha
    have h1 : (a ||| (m &&& mask)).testBit i = true := by
      rw [Nat.testBit_or, hi, Bool.true_or]
    rw [h0, Nat.zero_testBit] at h1
    exact Bool.false_ne_true h1
  simp only [expandQuery]
  rw [if_pos hne]

/-- On the argument text `a & ~m`, with `m` a single bit other than the bit of
the mask, the expansion is the bit evaluation of `a`. -/
theorem expandQuery_andNotMask_other (a j k : Nat) (hj : j < 32) (hk : k < 32)
    (hne : j ≠ k) :
    expandQuery (bit32 k) (FlagArg.andNotMask a (bit32 j)) = bitEval a (bit32 k) := by
  have h : expandQuery (bit32 k) (FlagArg.andNotMask a (bit32 j))
      = bitEval (a &&& not32 (bit32 j)) (bit32 k) := rfl
  rw [h, bitEval_bit32 _ k hk, bitEval_bit32 a k hk, bit32_eq_two_pow j hj,
    Nat.testBit_and, testBit_not32_two_pow j k hj hk hne, Bool.and_true]

/-- A plain word whose value is `a | m`, with `m` a single bit other than the
bit of the mask, has the bit evaluation of `a`. -/
theorem bitEval_or_value_other (a j k : Nat) (hj : j < 32) (hk : k < 32) (hne : j ≠ k) :
    bitEval (a ||| bit32 j) (bit32 k) = bitEval a (bit32 k) := by
  rw [bitEval_bit32 _ k hk, bitEval_bit32 a k hk, bit32_eq_two_pow j hj,
    Nat.testBit_or, Nat.testBit_two_pow_of_ne hne, Bool.or_false]

/-- Every internal flag mask is the single bit `k` for some `k` below 16. -/
theorem flagMasks_single_bit : ∀ m ∈ flagMasks, ∃ j, j < 16 ∧ m = bit32 j := by
  decide

/-- The sixteen internal flag masks are the single bits 0..15, pairwise disjoint. -/
theorem flagMasks_disjoint_bits :
    flagMasks = (List.range 16).map (fun k => 2 ^ k) ∧
    (∀ m ∈ flagMasks, ∀ n ∈ flagMasks, m ≠ n → m &&& n = 0) := by
  decide

/-- Every query macro is the bit evaluation of its own mask, one of the bits below 16. -/
theorem macroMasks_bitEval : ∀ p ∈ macroMasks,
    ∃ k, k < 16 ∧ p.2 = bit32 k ∧ ∀ x, p.1 x = bitEval x (bit32 k) := by
  intro p hp
  simp only [macroMasks, List.mem_cons, List.mem_singleton, List.not_mem_nil, or_false] at hp
  rcases hp with h | h | h | h | h | h | h | h | h | h | h | h | h | h <;> subst h
  · exact ⟨0, by decide, rfl, fun _ => rfl⟩
  · exact ⟨1, by decide, rfl, fun _ => rfl⟩
  · exact ⟨2, by decide, rfl, fun _ => rfl⟩
  · exact ⟨3, by decide, rfl, fun _ => rfl⟩
  · exact ⟨4, by decide, rfl, fun _ => rfl⟩
  · exact ⟨5, by decide, rfl, fun _ => rfl⟩
  · exact ⟨6, by decide, rfl, fun _ => rfl⟩
  · exact ⟨7, by decide, rfl, fun _ => rfl⟩
  · exact ⟨8, by decide, rfl, fun _ => rfl⟩
  · exact ⟨9, by decide, rfl, fun _ => rfl⟩
  · exact ⟨12, by decide, rfl, fun _ => rfl⟩
  · exact ⟨13, by decide, rfl, fun _ => rfl⟩
  · exact ⟨14, by decide, rfl, fun _ => rfl⟩
  · exact ⟨15, by decide, rfl, fun _ => rfl⟩

/-- What holds of the flag operations for every flag word `a`, every query
macro and every internal flag mask `m` other than the own mask of the macro:
the macro written on `a & ~m` answers as on `a`; the macro applied to a plain
word of value `a | m` answers as on `a`; but the macro written on `a | m`
answers TRUE whenever `a` is non-zero. -/
theorem query_macro_on_flag_operations (a : Nat) :
    ∀ p ∈ macroMasks, ∀ m ∈ flagMasks, m ≠ p.2 →
      expandQuery p.2 (FlagArg.andNotMask a m) = p.1 a ∧
      expandQuery p.2 (FlagArg.word (a ||| m)) = p.1 a ∧
      (a ≠ 0 → expandQuery p.2 (FlagArg.orMask a m) = TRUE) := by
  intro p hp m hm hne
  obtain ⟨k, hk, hpk, hP⟩ := macroMasks_bitEval p hp
  obtain ⟨j, hj, hmj⟩ := flagMasks_single_bit m hm
  have hjk : j ≠ k := fun h => hne (by rw [hmj, hpk, h])
  have hj32 : j < 32 := by omega
  have hk32 : k < 32 := by omega
  subst hmj
  refine ⟨?_, ?_, fun ha => expandQuery_orMask_of_ne_zero p.2 a _ ha⟩
  · rw [hP, hpk]; exact expandQuery_andNotMask_other a j k hj32 hk32 hjk
  · rw [hP, hpk, expandQuery_word]; exact bitEval_or_value_other a j k hj32 hk32 hjk

end Xio

/-! ## Theorems: independence of the flags -/

namespace Xio

/-- C11 (evaluation on the header): the query macros use their parameter
without parentheses, so `READ(a | m)` is `((a | m & XIO_FLAG_RD_bm) ? TRUE :
FALSE)`. On the flag word `a = 0x2004` (BLOCK and DO_XOFF set, RD clear) and
the mask `m = XIO_FLAG_EOF_bm`, which is not the mask of `READ`, it is
`0x2004 | (0x0800 & 0x0001) = 0x2004`, non-zero, so `READ(a | m)` is TRUE
while `READ(a)` is FALSE: setting the EOF flag inside the argument changes the
answer of `READ`. The same word passed as a plain value (`0x2804`) gives FALSE. -/
theorem read_of_or_argument_is_true_when_read_is_false :
    IsFlagWord 0x2004 ∧ XIO_FLAG_EOF_bm ∈ flagMasks ∧ XIO_FLAG_EOF_bm ≠ XIO_FLAG_RD_bm ∧
    (∀ a, READ a = expandQuery XIO_FLAG_RD_bm (FlagArg.word a)) ∧
    0x2004 ||| (XIO_FLAG_EOF_bm &&& XIO_FLAG_RD_bm) = 0x2004 ∧
    expandQuery XIO_FLAG_RD_bm (FlagArg.orMask 0x2004 XIO_FLAG_EOF_bm) = TRUE ∧
    READ 0x2004 = FALSE ∧
    expandQuery XIO_FLAG_RD_bm (FlagArg.orMask 0x2004 XIO_FLAG_EOF_bm) ≠ READ 0x2004 ∧
    FlagArg.value (FlagArg.orMask 0x2004 XIO_FLAG_EOF_bm) = 0x2804 ∧
    READ 0x2804 = FALSE := by
  refine ⟨by decide, by decide, by decide, fun _ => rfl, by decide, by decide, by decide,
    by decide, by decide, by decide⟩

end Xio
